import Mathlib

/-!
Shallow embedding of the client-side transcription/analysis pipeline of the
`conversations` repository, together with proofs about its spec claims.

The embedded functions mirror, statement by statement:
  * the analysis cache and hook orchestration of `src/hooks/useAIAnalysis.js`
    (`generateCacheKey`, `getCachedResult`, `setCachedResult`, `analyzeSummary`,
    `analyzeKeywords`, `analyzeQuestions`, `analyzeAll`);
  * the analysis service of `aiAnalysisService` (`analyzeText`,
    `splitTextIntoChunks`);
  * the transcription service validation of `transcriptionService.transcribeAudio`;
  * the progress reporting of the `useTranscription` hook.

JavaScript strings are modelled as Lean `String`/`List Char` (the inputs of
interest are BMP text, where JS UTF-16 lengths coincide with code-point
counts), JS `Date.now()` timestamps as `Int` milliseconds, and JS numbers used
for progress percentages as `ℚ` (all progress arithmetic in the source —
halving, `Math.min`, `Math.round` — is exact on binary floats for the values
involved).  Network calls are black boxes: each provider-dependent call is a
parameter giving that call's settled outcome (`Except` of the thrown error
message or the fulfilled value).
-/

namespace Conversations

/-! Characters matched by the JavaScript regex class `\s` (ECMAScript
WhiteSpace and LineTerminator). -/

def jsWs (c : Char) : Bool :=
  c == ' ' || c == '\t' || c == '\n' || c == '\r' ||
  c == '\x0b' || c == '\x0c' ||
  (0x00a0 == c.val) || (0x1680 == c.val) ||
  (0x2000 ≤ c.val && c.val ≤ 0x200a) ||
  (0x2028 == c.val) || (0x2029 == c.val) || (0x202f == c.val) ||
  (0x205f == c.val) || (0x3000 == c.val) || (0xfeff == c.val)

/-- JavaScript `String.prototype.trim` on a character list: drop whitespace
from both ends. -/
def trimL (l : List Char) : List Char :=
  ((l.dropWhile jsWs).reverse.dropWhile jsWs).reverse

/-- JavaScript `text.trim()`. -/
def jsTrim (s : String) : String := String.mk (trimL s.data)

/-- The text normalization of `generateCacheKey` in `useAIAnalysis.js`:
`text.trim().toLowerCase()` (per-character lowercasing). -/
def normalizeText (text : String) : String :=
  String.mk ((trimL text.data).map Char.toLower)

/-- `generateCacheKey` of `useAIAnalysis.js`:
`` `${normalizedText.substring(0, 100)}_${optionsString}` `` where
`optionsString = JSON.stringify(options)`.  The serialized options object
(which carries the analysis kind in its `type` field) is taken as a black-box
string parameter. -/
def generateCacheKey (text : String) (optionsString : String) : String :=
  String.mk ((normalizeText text).data.take 100) ++ "_" ++ optionsString

/-! The analysis cache of `useAIAnalysis.js`: a JS `Map` (insertion-ordered,
unique keys) from cache keys to `{result, timestamp}` records, modelled as an
insertion-ordered association list. -/

structure CacheEntry (V : Type) where
  result : V
  timestamp : Int
deriving DecidableEq, Repr

/-- The `cacheRef.current` JS `Map`, in insertion order. -/
abbrev Cache (V : Type) := List (String × CacheEntry V)

/-- JS `Map.prototype.get`. -/
def mapGet {V : Type} (m : Cache V) (k : String) : Option (CacheEntry V) :=
  (m.find? (fun p => p.1 == k)).map (fun p => p.2)

/-- JS `Map.prototype.set`: update in place if the key is present (insertion
order unchanged), otherwise append at the end. -/
def mapSet {V : Type} (m : Cache V) (k : String) (e : CacheEntry V) : Cache V :=
  if m.any (fun p => p.1 == k) then
    m.map (fun p => if p.1 == k then (k, e) else p)
  else
    m ++ [(k, e)]

/-- JS `Map.prototype.delete` (unique keys: removes the entry for `k`). -/
def mapDelete {V : Type} (m : Cache V) (k : String) : Cache V :=
  m.eraseP (fun p => p.1 == k)

/-- JS `map.keys().next().value`: the first key in insertion order. -/
def firstKey {V : Type} (m : Cache V) : Option String :=
  m.head?.map (fun p => p.1)

/-- Well-formedness that JS `Map` maintains by construction: keys are unique. -/
def CacheWF {V : Type} (m : Cache V) : Prop :=
  (m.map (fun p => p.1)).Nodup

instance {V : Type} (m : Cache V) : Decidable (CacheWF m) := by
  unfold CacheWF; infer_instance

/-- `getCachedResult` of `useAIAnalysis.js`: return the entry's result if it is
less than one hour old (`Date.now() - cached.timestamp < 60 * 60 * 1000`),
otherwise delete the entry and return `null`.  Returns the result (if any)
together with the cache after the lookup. -/
def getCachedResult {V : Type} (cache : Cache V) (cacheKey : String) (now : Int) :
    Option V × Cache V :=
  match mapGet cache cacheKey with
  | some cached =>
      if now - cached.timestamp < 60 * 60 * 1000 then
        (some cached.result, cache)
      else
        (none, mapDelete cache cacheKey)
  | none => (none, cache)

/-- `setCachedResult` of `useAIAnalysis.js`: insert `{result, timestamp: now}`,
then, if the size exceeds 50, delete the first (oldest-inserted) key. -/
def setCachedResult {V : Type} (cache : Cache V) (cacheKey : String) (result : V)
    (now : Int) : Cache V :=
  let c := mapSet cache cacheKey ⟨result, now⟩
  if 50 < c.length then
    match firstKey c with
    | some k0 => mapDelete c k0
    | none => c
  else c

/-! The analysis service (`aiAnalysisService.analyzeText`).  The three per-kind
calls (`summarizeText`, `extractKeywords`, `generateQuestions`) each issue one
provider request; their settled outcomes are parameters (`Except.error` carries
`error.message` of the `AnalysisError` they throw). -/

inductive AnalysisKind where
  | summarize
  | extractKeywords
  | generateQuestions
deriving DecidableEq, Repr

/-- The three `include*` flags handed to `analyzeText`.  The `useAIAnalysis`
hook always passes genuine booleans (`options.includeX !== false`), on which
the service's own `options.includeX !== false` tests are the identity. -/
structure IncludeFlags where
  includeSummary : Bool
  includeKeywords : Bool
  includeQuestions : Bool
deriving DecidableEq, Repr

/-- The per-kind promises pushed (hence provider calls issued) by
`analyzeText`, in program order. -/
def issuedKinds (opts : IncludeFlags) : List AnalysisKind :=
  (if opts.includeSummary then [AnalysisKind.summarize] else []) ++
  (if opts.includeKeywords then [AnalysisKind.extractKeywords] else []) ++
  (if opts.includeQuestions then [AnalysisKind.generateQuestions] else [])

/-- Number of maximal whitespace runs, used for `text.split(/\s+/).length`. -/
def wsRunsGo : List Char → Bool → Nat
  | [], _ => 0
  | c :: rest, inRun =>
      if jsWs c then
        if inRun then wsRunsGo rest true else 1 + wsRunsGo rest true
      else wsRunsGo rest false

/-- JS `text.split(/\s+/).length`: one more than the number of maximal
whitespace runs. -/
def wordCount (text : String) : Nat := 1 + wsRunsGo text.data false

/-- The `originalText.preview` field of `analyzeText`:
`text.substring(0, 200) + (text.length > 200 ? '...' : '')`. -/
def textPreview (text : String) : String :=
  String.mk (text.data.take 200) ++ (if 200 < text.length then "..." else "")

/-- The object resolved by `analyzeText`: per-kind results and per-kind error
messages (`results` / `errors` in the source, flattened), the `success` flag
(`Object.keys(results).length > 0`), whether `errors` was non-null, and the
`originalText` metadata. -/
structure AnalyzeResult (S K Q : Type) where
  summary : Option S
  keywords : Option K
  questions : Option Q
  errSummary : Option String
  errKeywords : Option String
  errQuestions : Option String
  success : Bool
  hasErrors : Bool
  originalLength : Nat
  originalWordCount : Nat
  originalPreview : String
deriving DecidableEq, Repr

/-- Error message of a settled per-kind outcome, `none` on success. -/
def settledError {α : Type} : Except String α → Option String
  | Except.error m => some m
  | Except.ok _ => none

/-- `aiAnalysisService.analyzeText`: throws `EMPTY_TEXT` on blank input;
otherwise pushes one promise per enabled kind, waits for all of them to settle
(`Promise.allSettled`), collecting each fulfilled value into `results` and
each rejection's `error.message` into `errors`, and resolves with the
aggregate.  `summaryOutcome`/`keywordsOutcome`/`questionsOutcome` are the
settled outcomes of the three per-kind calls; the second component lists
the kinds actually issued. -/
def analyzeText {S K Q : Type} (text : String) (opts : IncludeFlags)
    (summaryOutcome : Except String S) (keywordsOutcome : Except String K)
    (questionsOutcome : Except String Q) :
    Except String (AnalyzeResult S K Q) × List AnalysisKind :=
  if (jsTrim text).length = 0 then
    (Except.error "No text provided for analysis", [])
  else
    let rSummary := if opts.includeSummary then Except.toOption summaryOutcome else none
    let rKeywords := if opts.includeKeywords then Except.toOption keywordsOutcome else none
    let rQuestions := if opts.includeQuestions then Except.toOption questionsOutcome else none
    let eSummary := if opts.includeSummary then settledError summaryOutcome else none
    let eKeywords := if opts.includeKeywords then settledError keywordsOutcome else none
    let eQuestions := if opts.includeQuestions then settledError questionsOutcome else none
    (Except.ok
      { summary := rSummary
        keywords := rKeywords
        questions := rQuestions
        errSummary := eSummary
        errKeywords := eKeywords
        errQuestions := eQuestions
        success := rSummary.isSome || rKeywords.isSome || rQuestions.isSome
        hasErrors := eSummary.isSome || eKeywords.isSome || eQuestions.isSome
        originalLength := text.length
        originalWordCount := wordCount text
        originalPreview := textPreview text },
     issuedKinds opts)

/-! `aiAnalysisService.splitTextIntoChunks`. -/

/-- Characters of the sentence-delimiter class `[.!?。！？]`. -/
def isSentenceDelim (c : Char) : Bool :=
  c == '.' || c == '!' || c == '?' || c == '。' || c == '！' || c == '？'

/-- Whether the next character exists and is `\s`. -/
def headIsWs : List Char → Bool
  | [] => false
  | c :: _ => jsWs c

/-- Scanner for JS `text.split(/[.!?。！？]\s+/)`: a split point is a
delimiter character followed by a (maximal, greedy) whitespace run; both are
consumed.  `inRun` marks that we are inside the whitespace run of a match. -/
def splitSentencesGo : List Char → Bool → List Char → List (List Char)
  | [], _, acc => [acc.reverse]
  | c :: rest, inRun, acc =>
      if inRun && jsWs c then splitSentencesGo rest true acc
      else if isSentenceDelim c && headIsWs rest then
        acc.reverse :: splitSentencesGo rest true []
      else splitSentencesGo rest false (c :: acc)

/-- `text.split(/[.!?。！？]\s+/)` of `splitTextIntoChunks`. -/
def splitSentences (text : String) : List (List Char) :=
  splitSentencesGo text.data false []

/-- The sentence-packing loop of `splitTextIntoChunks`: flush the current
chunk (trimmed) when adding the next sentence would exceed `maxChunkSize`,
then append `sentence + '. '`; after the loop, push the trimmed remainder if
non-blank. -/
def chunkLoop (maxChunkSize : Nat) : List (List Char) → List Char → List (List Char)
  | [], currentChunk =>
      if trimL currentChunk = [] then [] else [trimL currentChunk]
  | sentence :: rest, currentChunk =>
      if maxChunkSize < currentChunk.length + sentence.length then
        (if currentChunk = [] then [] else [trimL currentChunk]) ++
          chunkLoop maxChunkSize rest (sentence ++ ['.', ' '])
      else
        chunkLoop maxChunkSize rest (currentChunk ++ sentence ++ ['.', ' '])

/-- `aiAnalysisService.splitTextIntoChunks(text, maxChunkSize)`. -/
def splitTextIntoChunks (text : String) (maxChunkSize : Nat) : List String :=
  if text.length ≤ maxChunkSize then [text]
  else (chunkLoop maxChunkSize (splitSentences text) []).map String.mk

/-- Concatenation of sentences the way `chunkLoop` accumulates them:
each sentence followed by `'. '`. -/
def joinDot (block : List (List Char)) : List Char :=
  (block.map (fun s => s ++ ['.', ' '])).flatten

/-! The `useAIAnalysis` hook.  Its single JS `Map` cache stores summary,
keyword, question and aggregate results under kind-tagged keys, so the stored
values form a sum type. -/

/-- A value stored in the hook's cache / `results` state. -/
inductive HookCacheVal (S K Q : Type) where
  | summaryV : S → HookCacheVal S K Q
  | keywordsV : K → HookCacheVal S K Q
  | questionsV : Q → HookCacheVal S K Q
  | allV : AnalyzeResult S K Q → HookCacheVal S K Q
deriving DecidableEq, Repr

/-- The hook's React state: `isAnalyzing`, `progress`, `results`, `error`,
`analysisType`.  Initial values: `false`, `0`, `null`, `null`, `null`. -/
structure HookState (S K Q : Type) where
  isAnalyzing : Bool
  progress : Nat
  results : Option (HookCacheVal S K Q)
  error : Option String
  analysisType : Option String
deriving DecidableEq, Repr

/-- The hook state right after mounting. -/
def initialHookState (S K Q : Type) : HookState S K Q :=
  { isAnalyzing := false, progress := 0, results := none, error := none,
    analysisType := none }

/-- Result of running one hook analysis function to settlement: the value
returned / error thrown, the state once the `finally` block has run, the cache
afterwards, and the provider calls issued. -/
structure HookRunOut (S K Q : Type) where
  outcome : Except String (HookCacheVal S K Q)
  finalState : HookState S K Q
  finalCache : Cache (HookCacheVal S K Q)
  issuedCalls : List AnalysisKind
deriving Repr

/-- `analyzeSummary` of `useAIAnalysis.js`, run to settlement.  `optionsString`
is `JSON.stringify({type: 'summary', ...options})`; `serviceOutcome` is the
settled outcome of `aiAnalysisService.summarizeText`.  On a cache hit the
stored value is returned as-is.  Intermediate `setProgress(30)` /
`setProgress(100)` values are overwritten by the `finally` block, which always
restores `isAnalyzing = false`, `progress = 0`, `analysisType = null`. -/
def analyzeSummary {S K Q : Type} (st : HookState S K Q)
    (cache : Cache (HookCacheVal S K Q)) (text : String) (optionsString : String)
    (serviceOutcome : Except String S) (now : Int) : HookRunOut S K Q :=
  if (jsTrim text).length = 0 then
    ⟨Except.error "텍스트가 비어있습니다.", st, cache, []⟩
  else
    let cacheKey := generateCacheKey text optionsString
    match getCachedResult cache cacheKey now with
    | (some cached, cache1) => ⟨Except.ok cached, st, cache1, []⟩
    | (none, cache1) =>
      let st1 := { st with isAnalyzing := true, progress := 0,
                           analysisType := some "summary", error := none }
      match serviceOutcome with
      | Except.ok r =>
          ⟨Except.ok (HookCacheVal.summaryV r),
           { st1 with isAnalyzing := false, progress := 0, analysisType := none },
           setCachedResult cache1 cacheKey (HookCacheVal.summaryV r) now,
           [AnalysisKind.summarize]⟩
      | Except.error e =>
          ⟨Except.error e,
           { st1 with error := some e, isAnalyzing := false, progress := 0,
                      analysisType := none },
           cache1,
           [AnalysisKind.summarize]⟩

/-- `analyzeKeywords` of `useAIAnalysis.js`, run to settlement (same shape as
`analyzeSummary` with kind `keywords`). -/
def analyzeKeywords {S K Q : Type} (st : HookState S K Q)
    (cache : Cache (HookCacheVal S K Q)) (text : String) (optionsString : String)
    (serviceOutcome : Except String K) (now : Int) : HookRunOut S K Q :=
  if (jsTrim text).length = 0 then
    ⟨Except.error "텍스트가 비어있습니다.", st, cache, []⟩
  else
    let cacheKey := generateCacheKey text optionsString
    match getCachedResult cache cacheKey now with
    | (some cached, cache1) => ⟨Except.ok cached, st, cache1, []⟩
    | (none, cache1) =>
      let st1 := { st with isAnalyzing := true, progress := 0,
                           analysisType := some "keywords", error := none }
      match serviceOutcome with
      | Except.ok r =>
          ⟨Except.ok (HookCacheVal.keywordsV r),
           { st1 with isAnalyzing := false, progress := 0, analysisType := none },
           setCachedResult cache1 cacheKey (HookCacheVal.keywordsV r) now,
           [AnalysisKind.extractKeywords]⟩
      | Except.error e =>
          ⟨Except.error e,
           { st1 with error := some e, isAnalyzing := false, progress := 0,
                      analysisType := none },
           cache1,
           [AnalysisKind.extractKeywords]⟩

/-- `analyzeQuestions` of `useAIAnalysis.js`, run to settlement (same shape as
`analyzeSummary` with kind `questions`). -/
def analyzeQuestions {S K Q : Type} (st : HookState S K Q)
    (cache : Cache (HookCacheVal S K Q)) (text : String) (optionsString : String)
    (serviceOutcome : Except String Q) (now : Int) : HookRunOut S K Q :=
  if (jsTrim text).length = 0 then
    ⟨Except.error "텍스트가 비어있습니다.", st, cache, []⟩
  else
    let cacheKey := generateCacheKey text optionsString
    match getCachedResult cache cacheKey now with
    | (some cached, cache1) => ⟨Except.ok cached, st, cache1, []⟩
    | (none, cache1) =>
      let st1 := { st with isAnalyzing := true, progress := 0,
                           analysisType := some "questions", error := none }
      match serviceOutcome with
      | Except.ok r =>
          ⟨Except.ok (HookCacheVal.questionsV r),
           { st1 with isAnalyzing := false, progress := 0, analysisType := none },
           setCachedResult cache1 cacheKey (HookCacheVal.questionsV r) now,
           [AnalysisKind.generateQuestions]⟩
      | Except.error e =>
          ⟨Except.error e,
           { st1 with error := some e, isAnalyzing := false, progress := 0,
                      analysisType := none },
           cache1,
           [AnalysisKind.generateQuestions]⟩

/-- The long-text preprocessing of `analyzeAll`: texts over 8000 characters
are split with chunk size 4000 and only the first chunk is analyzed
(`chunks[0]`). -/
def analyzeProcessText (text : String) : String :=
  if 8000 < text.length then (splitTextIntoChunks text 4000).headD "" else text

/-- `analyzeAll` of `useAIAnalysis.js`, run to settlement.  `optionsString` is
`JSON.stringify({type: 'all', ...options})`; `opts` are the booleans
`options.includeX !== false` it passes to `analyzeText`; the three `Except`
parameters are the settled per-kind outcomes consumed by `analyzeText`.  On a
cache hit it stores the cached value into `results` and returns it without
issuing provider calls. -/
def analyzeAllRun {S K Q : Type} (st : HookState S K Q)
    (cache : Cache (HookCacheVal S K Q)) (text : String) (optionsString : String)
    (opts : IncludeFlags) (summaryOutcome : Except String S)
    (keywordsOutcome : Except String K) (questionsOutcome : Except String Q)
    (now : Int) : HookRunOut S K Q :=
  if (jsTrim text).length = 0 then
    ⟨Except.error "텍스트가 비어있습니다.", st, cache, []⟩
  else
    let cacheKey := generateCacheKey text optionsString
    match getCachedResult cache cacheKey now with
    | (some cached, cache1) =>
        ⟨Except.ok cached, { st with results := some cached }, cache1, []⟩
    | (none, cache1) =>
      let st1 := { st with isAnalyzing := true, progress := 0,
                           analysisType := some "all", error := none,
                           results := none }
      match analyzeText (analyzeProcessText text) opts summaryOutcome
          keywordsOutcome questionsOutcome with
      | (Except.ok r, issued) =>
          ⟨Except.ok (HookCacheVal.allV r),
           { st1 with results := some (HookCacheVal.allV r), isAnalyzing := false,
                      progress := 0, analysisType := none },
           setCachedResult cache1 cacheKey (HookCacheVal.allV r) now,
           issued⟩
      | (Except.error e, issued) =>
          ⟨Except.error e,
           { st1 with error := some e, isAnalyzing := false, progress := 0,
                      analysisType := none },
           cache1,
           issued⟩

/-! The transcription service (`transcriptionService.transcribeAudio`):
pre-flight validation before the upload request is issued.  The size ceiling
is 15 MB in the relay-based service and 25 MB / 500 MB in its direct-call and
blob variants; all variants share the check order and the accepted-type set,
so the ceiling is a parameter. -/

/-- The pipeline's view of a candidate upload (`File`). -/
structure AudioFile where
  name : String
  declaredMediaType : String
  sizeBytes : Nat
deriving DecidableEq, Repr

/-- The `supportedTypes` array of `transcribeAudio`. -/
def supportedTypes : List String :=
  ["audio/mpeg", "audio/mp3", "audio/wav", "audio/m4a", "audio/mp4",
   "audio/webm", "audio/ogg"]

/-- Outcome of `transcribeAudio` up to the point where the upload request is
sent: either a `TranscriptionError` thrown locally (its `code`), with no
network activity, or the network request being issued. -/
inductive TranscribePreflight where
  | throwError (code : String)
  | networkRequest
deriving DecidableEq, Repr

/-- The validation prefix of `transcribeAudio(file, ...)`: missing file, then
`file.size > maxSize` (`FILE_TOO_LARGE`), then
`!supportedTypes.includes(file.type)` (`UNSUPPORTED_FILE_TYPE`); only then is
the request sent. -/
def transcribeAudioPreflight (maxSizeBytes : Nat) (file : Option AudioFile) :
    TranscribePreflight :=
  match file with
  | none => TranscribePreflight.throwError "MISSING_FILE"
  | some f =>
      if maxSizeBytes < f.sizeBytes then
        TranscribePreflight.throwError "FILE_TOO_LARGE"
      else if ¬ (supportedTypes.contains f.declaredMediaType) then
        TranscribePreflight.throwError "UNSUPPORTED_FILE_TYPE"
      else TranscribePreflight.networkRequest

/-- Network requests issued by `transcribeAudio` before/at the upload (0 when
validation throws, 1 when the upload request is sent). -/
def networkCallsIssued (maxSizeBytes : Nat) (file : Option AudioFile) : Nat :=
  match transcribeAudioPreflight maxSizeBytes file with
  | TranscribePreflight.throwError _ => 0
  | TranscribePreflight.networkRequest => 1

/-- The 15 MB ceiling of the relay-based `transcribeAudio`. -/
def maxSize15MB : Nat := 15 * 1024 * 1024

/-- The 25 MB ceiling of the direct-call `transcribeAudio`. -/
def maxSize25MB : Nat := 25 * 1024 * 1024

/-! Progress reporting of one successful `useTranscription.transcribe` run. -/

/-- JS `Math.round` on the (exactly representable) values involved:
round half toward positive infinity. -/
def jsRound (q : ℚ) : Int := ⌊q + 1 / 2⌋

/-- The integer percentages `Math.round((event.loaded / event.total) * 100)`
that `transcribeAudio` feeds to `onProgress`, for a sequence of
`loaded` byte counts of one upload. -/
def uploadEventPercents (total : Nat) (loadedSeq : List Nat) : List ℚ :=
  loadedSeq.map (fun loaded : Nat => ((jsRound ((loaded : ℚ) / (total : ℚ) * 100) : Int) : ℚ))

/-- The hook's `onProgress` mapping: `Math.min(uploadProgress * 0.5, 50)`,
placing upload progress in the 0–50 band. -/
def mapUploadProgress (p : ℚ) : ℚ := min (p * (1 / 2)) 50

/-- The sequence of values passed to `setProgress` across one successful
`transcribe` run: the initial `setProgress(0)`, one mapped value per upload
progress event, then the fixed `setProgress(75)` and `setProgress(100)`. -/
def reportedProgress (uploadPercents : List ℚ) : List ℚ :=
  0 :: (uploadPercents.map mapUploadProgress ++ [75, 100])

/-! Helper lemmas about trimming and the chunk loop. -/

lemma mem_dropWhile_of_mem {p : Char → Bool} :
    ∀ {l : List Char} {c : Char}, c ∈ l → p c = false → c ∈ l.dropWhile p := by
  intro l
  induction l with
  | nil => intro c hc; cases hc
  | cons a t ih =>
      intro c hc hp
      rw [List.dropWhile_cons]
      by_cases ha : p a = true
      · rw [if_pos ha]
        rcases List.mem_cons.1 hc with h | h
        · subst h; rw [hp] at ha; cases ha
        · exact ih h hp
      · rw [if_neg ha]; exact hc

lemma mem_trimL {l : List Char} {c : Char} (hc : c ∈ l) (hw : jsWs c = false) :
    c ∈ trimL l := by
  unfold trimL
  rw [List.mem_reverse]
  exact mem_dropWhile_of_mem (List.mem_reverse.2 (mem_dropWhile_of_mem hc hw)) hw

lemma trimL_ne_nil {l : List Char} {c : Char} (hc : c ∈ l) (hw : jsWs c = false) :
    trimL l ≠ [] :=
  List.ne_nil_of_mem (mem_trimL hc hw)

lemma chunkLoop_mem_dot (maxChunkSize : Nat) :
    ∀ (sents : List (List Char)) (cur : List Char),
      (cur = [] ∨ '.' ∈ cur) →
      ∀ c ∈ chunkLoop maxChunkSize sents cur, '.' ∈ c := by
  intro sents
  induction sents with
  | nil =>
      intro cur hcur c hc
      unfold chunkLoop at hc
      by_cases h : trimL cur = []
      · rw [if_pos h] at hc; cases hc
      · rw [if_neg h] at hc
        rcases List.mem_singleton.1 hc with rfl
        rcases hcur with rfl | hdot
        · exact absurd rfl h
        · exact mem_trimL hdot (by decide)
  | cons s rest ih =>
      intro cur hcur c hc
      unfold chunkLoop at hc
      by_cases hcond : maxChunkSize < cur.length + s.length
      · rw [if_pos hcond] at hc
        rcases List.mem_append.1 hc with h | h
        · by_cases hnil : cur = []
          · rw [if_pos hnil] at h; cases h
          · rw [if_neg hnil] at h
            rcases List.mem_singleton.1 h with rfl
            rcases hcur with rfl | hdot
            · exact absurd rfl hnil
            · exact mem_trimL hdot (by decide)
        · exact ih (s ++ ['.', ' ']) (Or.inr (by simp)) c h
      · rw [if_neg hcond] at hc
        exact ih (cur ++ s ++ ['.', ' ']) (Or.inr (by simp)) c hc

lemma chunkLoop_ne_nil (maxChunkSize : Nat) :
    ∀ (sents : List (List Char)) (cur : List Char),
      ('.' ∈ cur ∨ sents ≠ []) → chunkLoop maxChunkSize sents cur ≠ [] := by
  intro sents
  induction sents with
  | nil =>
      intro cur hcur
      rcases hcur with hdot | hne
      · unfold chunkLoop
        rw [if_neg (trimL_ne_nil hdot (by decide))]
        simp
      · exact absurd rfl hne
  | cons s rest ih =>
      intro cur _
      unfold chunkLoop
      by_cases hcond : maxChunkSize < cur.length + s.length
      · rw [if_pos hcond]
        intro hemp
        exact ih (s ++ ['.', ' ']) (Or.inl (by simp)) (List.append_eq_nil.1 hemp).2
      · rw [if_neg hcond]
        exact ih (cur ++ s ++ ['.', ' ']) (Or.inl (by simp))

lemma splitSentencesGo_ne_nil :
    ∀ (l : List Char) (inRun : Bool) (acc : List Char),
      splitSentencesGo l inRun acc ≠ [] := by
  intro l
  induction l with
  | nil => intro inRun acc; simp [splitSentencesGo]
  | cons c rest ih =>
      intro inRun acc
      unfold splitSentencesGo
      by_cases h1 : (inRun && jsWs c) = true
      · rw [if_pos h1]; exact ih true acc
      · rw [if_neg h1]
        by_cases h2 : (isSentenceDelim c && headIsWs rest) = true
        · rw [if_pos h2]; simp
        · rw [if_neg h2]; exact ih false (c :: acc)

/-- On a text longer than 8000 characters, the `analyzeAll` preprocessing
yields the first chunk, which is never blank (every chunk contains a period
and is already trimmed). -/
lemma jsTrim_analyzeProcessText_len (text : String)
    (h : (jsTrim text).length ≠ 0) :
    (jsTrim (analyzeProcessText text)).length ≠ 0 := by
  unfold analyzeProcessText
  by_cases hlen : 8000 < text.length
  · rw [if_pos hlen]
    have h4000 : ¬ (text.length ≤ 4000) := by omega
    unfold splitTextIntoChunks
    rw [if_neg h4000]
    have hne : chunkLoop 4000 (splitSentences text) [] ≠ [] :=
      chunkLoop_ne_nil 4000 (splitSentences text) [] (Or.inr (splitSentencesGo_ne_nil _ _ _))
    rcases hch : chunkLoop 4000 (splitSentences text) [] with _ | ⟨c0, crest⟩
    · exact absurd hch hne
    · have hdot : '.' ∈ c0 := by
        refine chunkLoop_mem_dot 4000 (splitSentences text) [] (Or.inl rfl) c0 ?_
        rw [hch]; exact List.mem_cons_self _ _
      have : '.' ∈ trimL c0 := mem_trimL hdot (by decide)
      simp only [List.map_cons, List.headD]
      show (jsTrim (String.mk c0)).length ≠ 0
      unfold jsTrim
      show (String.mk (trimL c0)).length ≠ 0
      have hne0 : trimL c0 ≠ [] := List.ne_nil_of_mem this
      have hpos : 0 < (trimL c0).length := List.length_pos.2 hne0
      show (trimL c0).length ≠ 0
      omega
  · rw [if_neg hlen]
    exact h

/-! Theorems.  Claim C6: cache key generation. -/

/-- C6: cache key generation is a pure function of the trimmed, lower-cased
text truncated to its first 100 characters, plus the serialized options (which
carry the analysis kind): whenever two texts' normalized forms agree on the
first 100 characters, identical options produce identical keys — in
particular, distinct long texts sharing a 100-character normalized prefix
collide.  Determinism for fixed inputs is immediate because the embedded
`generateCacheKey` is a pure function of its arguments. -/
theorem generateCacheKey_prefix_collision (t1 t2 optionsString : String)
    (h : (normalizeText t1).data.take 100 = (normalizeText t2).data.take 100) :
    generateCacheKey t1 optionsString = generateCacheKey t2 optionsString := by
  unfold generateCacheKey
  rw [h]

/-- Witness for C6: two distinct 101-character texts agreeing on their first
100 characters receive the same cache key. -/
theorem generateCacheKey_prefix_collision_witness :
    String.mk (List.replicate 101 'a') ≠ String.mk (List.replicate 100 'a' ++ ['b']) ∧
    generateCacheKey (String.mk (List.replicate 101 'a')) "opts" =
      generateCacheKey (String.mk (List.replicate 100 'a' ++ ['b'])) "opts" :=
  ⟨by decide, generateCacheKey_prefix_collision _ _ _ (by decide)⟩

/-! Claims C8 and C9: pre-flight file validation of `transcribeAudio`. -/

/-- C8 (amended): a file over the size ceiling is rejected locally with
`FILE_TOO_LARGE` and zero network calls; a file within the ceiling whose
declared media type is not in the accepted set is rejected locally with
`UNSUPPORTED_FILE_TYPE` and zero network calls.  (The "within the ceiling"
qualifier is forced: when both checks fail, the size check wins — see the
counterexample and C9.) -/
theorem validate_local_failfast (maxSizeBytes : Nat) (f : AudioFile) :
    (maxSizeBytes < f.sizeBytes →
       transcribeAudioPreflight maxSizeBytes (some f) =
         TranscribePreflight.throwError "FILE_TOO_LARGE" ∧
       networkCallsIssued maxSizeBytes (some f) = 0) ∧
    (f.sizeBytes ≤ maxSizeBytes →
       supportedTypes.contains f.declaredMediaType = false →
       transcribeAudioPreflight maxSizeBytes (some f) =
         TranscribePreflight.throwError "UNSUPPORTED_FILE_TYPE" ∧
       networkCallsIssued maxSizeBytes (some f) = 0) := by
  constructor
  · intro hsize
    have hpre : transcribeAudioPreflight maxSizeBytes (some f) =
        TranscribePreflight.throwError "FILE_TOO_LARGE" := by
      simp [transcribeAudioPreflight, hsize]
    exact ⟨hpre, by unfold networkCallsIssued; rw [hpre]⟩
  · intro hsize htype
    have hpre : transcribeAudioPreflight maxSizeBytes (some f) =
        TranscribePreflight.throwError "UNSUPPORTED_FILE_TYPE" := by
      have h1 : ¬ (maxSizeBytes < f.sizeBytes) := by omega
      simp [transcribeAudioPreflight, h1, htype]
      simpa using htype
    exact ⟨hpre, by unfold networkCallsIssued; rw [hpre]⟩

/-- Witness for C8: a 16 MB `audio/mpeg` file trips the 15 MB ceiling with
`FILE_TOO_LARGE`, and a small `text/plain` file trips the type check with
`UNSUPPORTED_FILE_TYPE`; both issue zero network calls. -/
theorem validate_local_failfast_witness :
    (transcribeAudioPreflight maxSize15MB
        (some ⟨"big.mp3", "audio/mpeg", 16 * 1024 * 1024⟩) =
       TranscribePreflight.throwError "FILE_TOO_LARGE" ∧
     networkCallsIssued maxSize15MB
        (some ⟨"big.mp3", "audio/mpeg", 16 * 1024 * 1024⟩) = 0) ∧
    (transcribeAudioPreflight maxSize15MB
        (some ⟨"notes.txt", "text/plain", 1024⟩) =
       TranscribePreflight.throwError "UNSUPPORTED_FILE_TYPE" ∧
     networkCallsIssued maxSize15MB (some ⟨"notes.txt", "text/plain", 1024⟩) = 0) :=
  ⟨(validate_local_failfast maxSize15MB ⟨"big.mp3", "audio/mpeg", 16 * 1024 * 1024⟩).1
      (by decide),
   (validate_local_failfast maxSize15MB ⟨"notes.txt", "text/plain", 1024⟩).2
      (by decide) (by decide)⟩

/-- Counterexample for C8 as stated: a file whose declared media type is not
accepted does not always fail with the unsupported-type kind — when it also
exceeds the ceiling, it fails with `FILE_TOO_LARGE` instead. -/
theorem validate_unsupported_type_counterexample :
    supportedTypes.contains "text/plain" = false ∧
    transcribeAudioPreflight maxSize15MB
        (some ⟨"big.txt", "text/plain", 16 * 1024 * 1024⟩) =
      TranscribePreflight.throwError "FILE_TOO_LARGE" ∧
    transcribeAudioPreflight maxSize15MB
        (some ⟨"big.txt", "text/plain", 16 * 1024 * 1024⟩) ≠
      TranscribePreflight.throwError "UNSUPPORTED_FILE_TYPE" := by
  refine ⟨rfl, by decide, by decide⟩

/-- C9: when a file both exceeds the size ceiling and has an unsupported
declared media type, `transcribeAudio` rejects with `FILE_TOO_LARGE` (the size
check runs before the type check), for any configured ceiling (15 MB relay
variant, 25 MB direct variant, 500 MB blob variant alike). -/
theorem size_check_precedes_type_check (maxSizeBytes : Nat) (f : AudioFile)
    (hsize : maxSizeBytes < f.sizeBytes)
    (htype : supportedTypes.contains f.declaredMediaType = false) :
    transcribeAudioPreflight maxSizeBytes (some f) =
      TranscribePreflight.throwError "FILE_TOO_LARGE" := by
  simp [transcribeAudioPreflight, hsize]

/-- Witness for C9: a 16 MB / 26 MB `text/plain` file is rejected as
`FILE_TOO_LARGE` under the 15 MB and 25 MB ceilings respectively. -/
theorem size_check_precedes_type_check_witness :
    transcribeAudioPreflight maxSize15MB
        (some ⟨"big.txt", "text/plain", 16 * 1024 * 1024⟩) =
      TranscribePreflight.throwError "FILE_TOO_LARGE" ∧
    transcribeAudioPreflight maxSize25MB
        (some ⟨"big.txt", "text/plain", 26 * 1024 * 1024⟩) =
      TranscribePreflight.throwError "FILE_TOO_LARGE" :=
  ⟨size_check_precedes_type_check maxSize15MB _ (by decide) (by decide),
   size_check_precedes_type_check maxSize25MB _ (by decide) (by decide)⟩

/-! Helper lemmas for progress monotonicity. -/

lemma chain_le_map {α β : Type} [Preorder α] [Preorder β] (f : α → β)
    (hf : ∀ a b : α, a ≤ b → f a ≤ f b) :
    ∀ {l : List α}, List.Chain' (· ≤ ·) l → List.Chain' (· ≤ ·) (l.map f) := by
  intro l
  induction l with
  | nil => intro _; simp
  | cons a t ih =>
      intro h
      rw [List.chain'_cons'] at h
      rw [List.map_cons, List.chain'_cons']
      refine ⟨?_, ih h.2⟩
      intro y hy
      rw [List.head?_map] at hy
      rcases ht : t.head? with _ | b
      · rw [ht] at hy; cases hy
      · rw [ht] at hy
        have hb : y = f b := by simpa using hy.symm
        rw [hb]
        exact hf a b (h.1 b (by rw [ht]; rfl))

lemma mem_of_head?_eq {α : Type} {l : List α} {a : α} (h : l.head? = some a) :
    a ∈ l := by
  cases l with
  | nil => cases h
  | cons x t =>
      have hxa : x = a := by simpa using h
      simp [hxa]

lemma mem_of_getLast?_eq {α : Type} :
    ∀ {l : List α} {a : α}, l.getLast? = some a → a ∈ l := by
  intro l
  induction l with
  | nil => intro a h; cases h
  | cons x t ih =>
      intro a h
      rcases t with _ | ⟨y, t'⟩
      · have hxa : x = a := by simpa using h
        simp [hxa]
      · rw [List.getLast?_cons_cons] at h
        exact List.mem_cons_of_mem x (ih h)

lemma jsRound_mono {a b : ℚ} (h : a ≤ b) : jsRound a ≤ jsRound b :=
  Int.floor_le_floor (add_le_add_right h (1 / 2))

lemma jsRound_nonneg {a : ℚ} (h : 0 ≤ a) : (0 : Int) ≤ jsRound a :=
  Int.le_floor.2 (by push_cast; linarith)

lemma uploadPercent_nonneg (total loaded : Nat) :
    (0 : ℚ) ≤ ((jsRound ((loaded : ℚ) / (total : ℚ) * 100) : Int) : ℚ) := by
  have hx : (0 : ℚ) ≤ (loaded : ℚ) / (total : ℚ) * 100 :=
    mul_nonneg (div_nonneg (by positivity) (by positivity)) (by norm_num)
  exact_mod_cast jsRound_nonneg hx

lemma mapUploadProgress_mono {a b : ℚ} (h : a ≤ b) :
    mapUploadProgress a ≤ mapUploadProgress b :=
  min_le_min (mul_le_mul_of_nonneg_right h (by norm_num)) le_rfl

lemma mapUploadProgress_nonneg {p : ℚ} (hp : 0 ≤ p) : 0 ≤ mapUploadProgress p :=
  le_min (mul_nonneg hp (by norm_num)) (by norm_num)

lemma mapUploadProgress_le_50 (p : ℚ) : mapUploadProgress p ≤ 50 :=
  min_le_right _ _

lemma uploadEventPercents_chain (total : Nat) {loadedSeq : List Nat}
    (hmono : List.Chain' (· ≤ ·) loadedSeq) :
    List.Chain' (· ≤ ·) (uploadEventPercents total loadedSeq) := by
  unfold uploadEventPercents
  refine chain_le_map (fun loaded : Nat => ((jsRound ((loaded : ℚ) / (total : ℚ) * 100) : Int) : ℚ)) ?_ hmono
  intro a b hab
  have hq : ((a : ℚ) / (total : ℚ) * 100) ≤ ((b : ℚ) / (total : ℚ) * 100) := by
    refine mul_le_mul_of_nonneg_right ?_ (by norm_num)
    exact div_le_div_of_nonneg_right (by exact_mod_cast hab) (by positivity)
  show ((jsRound ((a : ℚ) / (total : ℚ) * 100) : Int) : ℚ) ≤
    ((jsRound ((b : ℚ) / (total : ℚ) * 100) : Int) : ℚ)
  exact_mod_cast jsRound_mono hq

lemma uploadEventPercents_nonneg (total : Nat) (loadedSeq : List Nat) :
    ∀ p ∈ uploadEventPercents total loadedSeq, 0 ≤ p := by
  intro p hp
  unfold uploadEventPercents at hp
  rcases List.mem_map.1 hp with ⟨loaded, _, rfl⟩
  exact uploadPercent_nonneg total loaded

/-! Helper lemmas for the chunking claim. -/

lemma length_dropWhile_le (p : Char → Bool) (l : List Char) :
    (l.dropWhile p).length ≤ l.length := by
  induction l with
  | nil => simp
  | cons c t ih =>
      rw [List.dropWhile_cons]
      by_cases h : p c = true
      · rw [if_pos h]
        exact Nat.le_trans ih (Nat.le_succ _)
      · rw [if_neg h]

lemma joinDot_append (a b : List (List Char)) :
    joinDot (a ++ b) = joinDot a ++ joinDot b := by
  unfold joinDot
  rw [List.map_append, List.flatten_append]

lemma joinDot_singleton (s : List Char) : joinDot [s] = s ++ ['.', ' '] := by
  unfold joinDot
  simp

lemma joinDot_eq_nil_iff (l : List (List Char)) : joinDot l = [] ↔ l = [] := by
  cases l with
  | nil => simp [joinDot]
  | cons s t =>
      simp only [joinDot, List.map_cons, List.flatten_cons]
      constructor
      · intro h
        rcases List.append_eq_nil.1 h with ⟨h1, _⟩
        rcases List.append_eq_nil.1 h1 with ⟨_, h2⟩
        cases h2
      · intro h; cases h

lemma getLast?_append_dot (x : List Char) : (x ++ ['.', ' ']).getLast? = some ' ' := by
  rw [List.getLast?_append]
  rfl

lemma getLast?_joinDot {l : List (List Char)} (h : l ≠ []) :
    (joinDot l).getLast? = some ' ' := by
  rcases List.eq_nil_or_concat l with rfl | ⟨front, s, rfl⟩
  · exact absurd rfl h
  · rw [List.concat_eq_append, joinDot_append, joinDot_singleton, ← List.append_assoc]
    exact getLast?_append_dot _

/-- Trimming a chunk that ends in a space shortens it by at least one. -/
lemma trimL_length_lt {l : List Char} (h : l.getLast? = some ' ') :
    (trimL l).length + 1 ≤ l.length := by
  have hlne : l ≠ [] := by intro he; rw [he] at h; cases h
  have hlpos : 1 ≤ l.length := List.length_pos.2 hlne
  unfold trimL
  rw [List.length_reverse]
  rcases hl1 : l.dropWhile jsWs with _ | ⟨c, t⟩
  · simp only [List.reverse_nil, List.dropWhile_nil, List.length_nil]
    omega
  · have hsuffix : l.dropWhile jsWs <:+ l := List.dropWhile_suffix jsWs
    rw [hl1] at hsuffix
    rcases hsuffix with ⟨a, ha⟩
    have hglsome := List.getLast?_eq_getLast (c :: t) (by simp)
    have hlast : (c :: t).getLast? = some ' ' := by
      rw [← ha, List.getLast?_append, hglsome] at h
      have h' : some ((c :: t).getLast (by simp)) = some ' ' := h
      rw [hglsome]
      exact h'
    have hrev : (c :: t).reverse.head? = some ' ' := by
      rw [List.head?_reverse]
      exact hlast
    rcases hr : (c :: t).reverse with _ | ⟨r0, rs⟩
    · exact absurd hr (by simp)
    · rw [hr] at hrev
      have hr0 : r0 = ' ' := by simpa using hrev
      rw [List.dropWhile_cons, if_pos (by rw [hr0]; decide)]
      have h1 := length_dropWhile_le jsWs rs
      have h2 : rs.length + 1 = (c :: t).length := by
        have hh : (r0 :: rs).length = (c :: t).reverse.length := by rw [hr]
        rw [List.length_reverse] at hh
        simpa using hh
      have h3 : (c :: t).length ≤ l.length := by
        rw [← ha, List.length_append]
        omega
      omega

/-- Every chunk emitted by the loop is at most `maxChunkSize + 1` characters,
provided no single sentence exceeds `maxChunkSize`. -/
lemma chunkLoop_length_le (maxChunkSize : Nat) :
    ∀ (sents : List (List Char)) (cur : List Char),
      (∀ s ∈ sents, s.length ≤ maxChunkSize) →
      (cur = [] ∨ (cur.length ≤ maxChunkSize + 2 ∧ cur.getLast? = some ' ')) →
      ∀ c ∈ chunkLoop maxChunkSize sents cur, c.length ≤ maxChunkSize + 1 := by
  intro sents
  induction sents with
  | nil =>
      intro cur _ hcur c hc
      unfold chunkLoop at hc
      by_cases h : trimL cur = []
      · rw [if_pos h] at hc; cases hc
      · rw [if_neg h] at hc
        rcases List.mem_singleton.1 hc with rfl
        rcases hcur with rfl | ⟨hlen, hlast⟩
        · exact absurd rfl h
        · have := trimL_length_lt hlast
          omega
  | cons s rest ih =>
      intro cur hsents hcur c hc
      have hs : s.length ≤ maxChunkSize := hsents s (List.mem_cons_self _ _)
      have hrest : ∀ t ∈ rest, t.length ≤ maxChunkSize := fun t ht =>
        hsents t (List.mem_cons_of_mem s ht)
      unfold chunkLoop at hc
      by_cases hcond : maxChunkSize < cur.length + s.length
      · rw [if_pos hcond] at hc
        rcases List.mem_append.1 hc with h | h
        · by_cases hnil : cur = []
          · rw [if_pos hnil] at h; cases h
          · rw [if_neg hnil] at h
            rcases List.mem_singleton.1 h with rfl
            rcases hcur with rfl | ⟨hlen, hlast⟩
            · exact absurd rfl hnil
            · have := trimL_length_lt hlast
              omega
        · refine ih (s ++ ['.', ' ']) hrest (Or.inr ⟨?_, ?_⟩) c h
          · have hlen2 : (s ++ ['.', ' ']).length = s.length + 2 := by
              rw [List.length_append]
              rfl
            omega
          · exact getLast?_append_dot s
      · rw [if_neg hcond] at hc
        refine ih (cur ++ s ++ ['.', ' ']) hrest (Or.inr ⟨?_, ?_⟩) c hc
        · have hlen2 : (cur ++ s ++ ['.', ' ']).length = (cur ++ s).length + 2 := by
            rw [List.length_append]
            rfl
          have hlen3 : (cur ++ s).length = cur.length + s.length :=
            List.length_append cur s
          omega
        · exact getLast?_append_dot _

/-- Every chunk emitted by the loop is the trimmed join of a non-empty run of
consecutive sentences. -/
lemma chunkLoop_blocks (maxChunkSize : Nat) :
    ∀ (sents pre : List (List Char)),
      ∀ c ∈ chunkLoop maxChunkSize sents (joinDot pre),
        ∃ block, block ≠ [] ∧ block <:+: (pre ++ sents) ∧
          c = trimL (joinDot block) := by
  intro sents
  induction sents with
  | nil =>
      intro pre c hc
      unfold chunkLoop at hc
      by_cases h : trimL (joinDot pre) = []
      · rw [if_pos h] at hc; cases hc
      · rw [if_neg h] at hc
        rcases List.mem_singleton.1 hc with rfl
        refine ⟨pre, ?_, ?_, rfl⟩
        · intro hp
          rw [hp] at h
          exact h rfl
        · rw [List.append_nil]
  | cons s rest ih =>
      intro pre c hc
      unfold chunkLoop at hc
      by_cases hcond : maxChunkSize < (joinDot pre).length + s.length
      · rw [if_pos hcond] at hc
        rcases List.mem_append.1 hc with h | h
        · by_cases hnil : joinDot pre = []
          · rw [if_pos hnil] at h; cases h
          · rw [if_neg hnil] at h
            rcases List.mem_singleton.1 h with rfl
            refine ⟨pre, ?_, ?_, rfl⟩
            · intro hp
              rw [hp] at hnil
              exact hnil rfl
            · exact List.IsPrefix.isInfix (List.prefix_append pre (s :: rest))
        · have h' : c ∈ chunkLoop maxChunkSize rest (joinDot [s]) := by
            rw [joinDot_singleton]
            exact h
          rcases ih [s] c h' with ⟨block, hbne, hbinf, hbc⟩
          refine ⟨block, hbne, ?_, hbc⟩
          have h1 : ([s] ++ rest) <:+ (pre ++ (s :: rest)) := by
            rw [List.singleton_append]
            exact List.suffix_append pre (s :: rest)
          exact List.IsInfix.trans hbinf (List.IsSuffix.isInfix h1)
      · rw [if_neg hcond] at hc
        have h' : c ∈ chunkLoop maxChunkSize rest (joinDot (pre ++ [s])) := by
          rw [joinDot_append, joinDot_singleton, ← List.append_assoc]
          exact hc
        rcases ih (pre ++ [s]) c h' with ⟨block, hbne, hbinf, hbc⟩
        refine ⟨block, hbne, ?_, hbc⟩
        have : (pre ++ [s]) ++ rest = pre ++ (s :: rest) := by
          rw [List.append_assoc, List.singleton_append]
        rw [← this]
        exact hbinf

/-! Claim C3: `splitTextIntoChunks` and the `analyzeAll` long-text path. -/

/-- Counterexample for C3 as stated: the chunks are not always bounded by
`maxChunkSize` — a 5-character text split with `maxChunkSize = 4` yields the
single chunk `"aaaaa."` of length 6 (a sentence longer than the bound is
emitted whole, with `'. '` appended and the trailing space trimmed). -/
theorem splitTextIntoChunks_bound_counterexample :
    splitTextIntoChunks "aaaaa" 4 = ["aaaaa."] ∧ 4 < ("aaaaa." : String).length := by
  exact ⟨by decide, by decide⟩

/-- C3 (amended): `splitTextIntoChunks` returns `[text]` when the text fits in
`maxChunkSize`; otherwise every chunk is the trimmed `'. '`-join of a
non-empty run of consecutive sentences of the input (sentence-boundary
respecting), and is bounded by `maxChunkSize + 1` characters provided no
single sentence exceeds `maxChunkSize` (a lone over-long sentence is emitted
whole, and the appended separator can add one character past the bound — the
claim's strict `maxChunkSize` bound fails, see the counterexample); in
`analyzeAll`, a text over 8000 characters is preprocessed into the first
chunk of `splitTextIntoChunks text 4000`, and shorter texts are passed
through unchanged. -/
theorem splitTextIntoChunks_spec (text : String) (maxChunkSize : Nat) :
    (text.length ≤ maxChunkSize → splitTextIntoChunks text maxChunkSize = [text]) ∧
    (maxChunkSize < text.length →
       ∀ c ∈ splitTextIntoChunks text maxChunkSize,
         ∃ block, block ≠ [] ∧ block <:+: splitSentences text ∧
           c = String.mk (trimL (joinDot block))) ∧
    (maxChunkSize < text.length →
       (∀ s ∈ splitSentences text, s.length ≤ maxChunkSize) →
       ∀ c ∈ splitTextIntoChunks text maxChunkSize, c.length ≤ maxChunkSize + 1) ∧
    (8000 < text.length →
       analyzeProcessText text = (splitTextIntoChunks text 4000).headD "") ∧
    (text.length ≤ 8000 → analyzeProcessText text = text) := by
  refine ⟨?_, ?_, ?_, ?_, ?_⟩
  · intro h
    unfold splitTextIntoChunks
    rw [if_pos h]
  · intro hlt c hc
    unfold splitTextIntoChunks at hc
    rw [if_neg (by omega)] at hc
    rcases List.mem_map.1 hc with ⟨c', hc', rfl⟩
    rcases chunkLoop_blocks maxChunkSize (splitSentences text) [] c' hc'
      with ⟨block, hbne, hbinf, hbc⟩
    rw [List.nil_append] at hbinf
    exact ⟨block, hbne, hbinf, by rw [hbc]⟩
  · intro hlt hsent c hc
    unfold splitTextIntoChunks at hc
    rw [if_neg (by omega)] at hc
    rcases List.mem_map.1 hc with ⟨c', hc', rfl⟩
    exact chunkLoop_length_le maxChunkSize (splitSentences text) [] hsent
      (Or.inl rfl) c' hc'
  · intro h
    unfold analyzeProcessText
    rw [if_pos h]
  · intro h
    unfold analyzeProcessText
    rw [if_neg (by omega)]

/-- Witness for C3's amended theorem: a short text is returned whole; a
concrete over-long text's chunk `"ab."` is a trimmed run of sentences bounded
by `maxChunkSize + 1`; a 8001-character text is preprocessed to the first
4000-chunk. -/
theorem splitTextIntoChunks_spec_witness :
    splitTextIntoChunks "hello" 10 = ["hello"] ∧
    ("ab." : String).length ≤ 5 ∧
    (∃ block, block ≠ [] ∧ block <:+: splitSentences "ab. cd. ef" ∧
       ("ab." : String) = String.mk (trimL (joinDot block))) ∧
    analyzeProcessText (String.mk (List.replicate 8001 'a')) =
      (splitTextIntoChunks (String.mk (List.replicate 8001 'a')) 4000).headD "" :=
  ⟨(splitTextIntoChunks_spec "hello" 10).1 (by decide),
   (splitTextIntoChunks_spec "ab. cd. ef" 4).2.2.1 (by decide) (by decide)
     "ab." (by decide),
   (splitTextIntoChunks_spec "ab. cd. ef" 4).2.1 (by decide) "ab." (by decide),
   (splitTextIntoChunks_spec (String.mk (List.replicate 8001 'a')) 4000).2.2.2.1
     (by show 8000 < (List.replicate 8001 'a').length
         rw [List.length_replicate]
         omega)⟩

/-! Claim C7: transcription progress is monotonically non-decreasing 0 → 100. -/

/-- C7: across one successful `transcribe` run whose upload byte counts are
non-decreasing, the sequence of reported progress values is monotonically
non-decreasing, starts at 0 and ends at 100; every upload-phase value is
mapped into the 0–50 band before the fixed jumps to 75 and 100. -/
theorem transcription_progress_monotone (total : Nat) (loadedSeq : List Nat)
    (hmono : List.Chain' (· ≤ ·) loadedSeq) :
    List.Chain' (· ≤ ·) (reportedProgress (uploadEventPercents total loadedSeq)) ∧
    (reportedProgress (uploadEventPercents total loadedSeq)).head? = some 0 ∧
    (reportedProgress (uploadEventPercents total loadedSeq)).getLast? = some 100 ∧
    ∀ v ∈ (uploadEventPercents total loadedSeq).map mapUploadProgress,
      0 ≤ v ∧ v ≤ 50 := by
  have hband : ∀ v ∈ (uploadEventPercents total loadedSeq).map mapUploadProgress,
      0 ≤ v ∧ v ≤ 50 := by
    intro v hv
    rcases List.mem_map.1 hv with ⟨p, hp, rfl⟩
    exact ⟨mapUploadProgress_nonneg (uploadEventPercents_nonneg total loadedSeq p hp),
           mapUploadProgress_le_50 p⟩
  have hchainM : List.Chain' (· ≤ ·)
      ((uploadEventPercents total loadedSeq).map mapUploadProgress) :=
    chain_le_map mapUploadProgress (fun _ _ h => mapUploadProgress_mono h)
      (uploadEventPercents_chain total hmono)
  have htail : List.Chain' (· ≤ ·)
      ((uploadEventPercents total loadedSeq).map mapUploadProgress ++ [75, 100]) := by
    refine List.Chain'.append hchainM ?_ ?_
    · rw [List.chain'_cons']
      refine ⟨?_, List.chain'_singleton 100⟩
      intro y hy
      have h100 : (100 : ℚ) = y := by simpa using hy
      rw [← h100]
      norm_num
    · intro x hx y hy
      have hx' : x ∈ (uploadEventPercents total loadedSeq).map mapUploadProgress :=
        mem_of_getLast?_eq hx
      have h75 : (75 : ℚ) = y := by simpa using hy
      have hx50 := (hband x hx').2
      rw [← h75]
      linarith
  refine ⟨?_, rfl, ?_, hband⟩
  · unfold reportedProgress
    rw [List.chain'_cons']
    refine ⟨?_, htail⟩
    intro y hy
    have hymem : y ∈ (uploadEventPercents total loadedSeq).map mapUploadProgress ++ [75, 100] :=
      mem_of_head?_eq hy
    rcases List.mem_append.1 hymem with h | h
    · exact (hband y h).1
    · rcases List.mem_cons.1 h with rfl | h2
      · norm_num
      · have : y = 100 := by simpa using h2
        rw [this]
        norm_num
  · unfold reportedProgress
    rw [← List.cons_append, List.getLast?_append]
    rfl

/-- Witness for C7 at a concrete 3-event upload of 200 bytes. -/
theorem transcription_progress_monotone_witness :
    List.Chain' (· ≤ ·) (reportedProgress (uploadEventPercents 200 [50, 100, 200])) ∧
    (reportedProgress (uploadEventPercents 200 [50, 100, 200])).head? = some 0 ∧
    (reportedProgress (uploadEventPercents 200 [50, 100, 200])).getLast? = some 100 :=
  have h := transcription_progress_monotone 200 [50, 100, 200]
    (by norm_num [List.chain'_cons])
  ⟨h.1, h.2.1, h.2.2.1⟩

/-! Helper lemmas about the association-list model of the JS `Map` cache. -/

lemma find?_eq_none_of_fresh {V : Type} {m : Cache V} {k : String}
    (hfresh : ∀ p ∈ m, p.1 ≠ k) : m.find? (fun p => p.1 == k) = none := by
  rw [List.find?_eq_none]
  intro p hp
  simpa using hfresh p hp

lemma mapGet_of_fresh {V : Type} {m : Cache V} {k : String}
    (hfresh : ∀ p ∈ m, p.1 ≠ k) : mapGet m k = none := by
  unfold mapGet
  rw [find?_eq_none_of_fresh hfresh]
  rfl

lemma find?_key_of_mem {V : Type} :
    ∀ {m : Cache V}, CacheWF m → ∀ p ∈ m, m.find? (fun q => q.1 == p.1) = some p := by
  intro m
  induction m with
  | nil => intro _ p hp; cases hp
  | cons q t ih =>
      intro hwf p hp
      have hwf' := hwf
      unfold CacheWF at hwf'
      rw [List.map_cons, List.nodup_cons] at hwf'
      rcases List.mem_cons.1 hp with rfl | hpt
      · exact List.find?_cons_of_pos t (by simp)
      · have hne : ¬ (q.1 == p.1) = true := by
          simp only [beq_iff_eq]
          intro hq
          exact hwf'.1 (hq ▸ List.mem_map_of_mem (fun r => r.1) hpt)
        rw [List.find?_cons_of_neg t hne]
        exact ih hwf'.2 p hpt

lemma mapGet_of_mem {V : Type} {m : Cache V} (hwf : CacheWF m) {p : String × CacheEntry V}
    (hp : p ∈ m) : mapGet m p.1 = some p.2 := by
  unfold mapGet
  rw [find?_key_of_mem hwf p hp]
  rfl

lemma mapGet_mapDelete_self {V : Type} :
    ∀ {m : Cache V}, CacheWF m → ∀ (k : String), mapGet (mapDelete m k) k = none := by
  intro m
  induction m with
  | nil => intro _ k; rfl
  | cons q t ih =>
      intro hwf k
      have hwf' := hwf
      unfold CacheWF at hwf'
      rw [List.map_cons, List.nodup_cons] at hwf'
      unfold mapDelete
      by_cases hq : (q.1 == k) = true
      · rw [@List.eraseP_cons_of_pos _ q t (fun p => p.1 == k) hq]
        refine mapGet_of_fresh ?_
        intro p hp hpk
        have : q.1 = k := by simpa using hq
        exact hwf'.1 (by rw [this, ← hpk]; exact List.mem_map_of_mem (fun r => r.1) hp)
      · rw [@List.eraseP_cons_of_neg _ q t (fun p => p.1 == k) hq]
        unfold mapGet
        rw [@List.find?_cons_of_neg _ (fun p => p.1 == k) q _ hq]
        exact ih hwf'.2 k

lemma keys_mapSet {V : Type} (m : Cache V) (k : String) (e : CacheEntry V)
    (hp : m.any (fun p => p.1 == k) = true) :
    (mapSet m k e).map (fun p => p.1) = m.map (fun p => p.1) := by
  unfold mapSet
  rw [if_pos hp, List.map_map]
  refine List.map_congr_left ?_
  intro p _
  by_cases h : (p.1 == k) = true
  · simp only [Function.comp_apply, if_pos h]
    exact (beq_iff_eq.1 h).symm
  · simp only [Function.comp_apply, if_neg h]

lemma CacheWF_mapSet {V : Type} {m : Cache V} (hwf : CacheWF m) (k : String)
    (e : CacheEntry V) : CacheWF (mapSet m k e) := by
  by_cases hp : m.any (fun p => p.1 == k) = true
  · unfold CacheWF
    rw [keys_mapSet m k e hp]
    exact hwf
  · unfold mapSet
    rw [if_neg hp]
    unfold CacheWF
    rw [List.map_append, List.nodup_append]
    refine ⟨hwf, by simp, ?_⟩
    intro x hx hxk
    rcases List.mem_map.1 hx with ⟨p, hpm, rfl⟩
    have : (p.1 == k) = true := by
      simp only [List.map_cons, List.map_nil, List.mem_singleton] at hxk
      simp [hxk]
    exact hp (List.any_eq_true.2 ⟨p, hpm, this⟩)

lemma CacheWF_mapDelete {V : Type} {m : Cache V} (hwf : CacheWF m) (k : String) :
    CacheWF (mapDelete m k) :=
  List.Nodup.sublist (List.Sublist.map (fun p => p.1) (List.eraseP_sublist m)) hwf

lemma mapGet_mapSet_present {V : Type} {k : String} (e : CacheEntry V) :
    ∀ (m : Cache V), m.any (fun p => p.1 == k) = true →
      mapGet (m.map (fun p => if p.1 == k then (k, e) else p)) k = some e := by
  intro m
  induction m with
  | nil => intro h; cases h
  | cons q t ih =>
      intro hany
      rw [List.map_cons]
      by_cases hq : (q.1 == k) = true
      · rw [if_pos hq]
        unfold mapGet
        rw [@List.find?_cons_of_pos _ (fun p => p.1 == k) (k, e) _ (by simp)]
        rfl
      · rw [if_neg hq]
        unfold mapGet
        rw [@List.find?_cons_of_neg _ (fun p => p.1 == k) q _ hq]
        have : t.any (fun p => p.1 == k) = true := by
          rcases List.any_eq_true.1 hany with ⟨p, hp, hpk⟩
          rcases List.mem_cons.1 hp with rfl | hpt
          · exact absurd hpk hq
          · exact List.any_eq_true.2 ⟨p, hpt, hpk⟩
        exact ih this

/-- Inserting a fresh key into a full (50-entry) cache appends the entry and
evicts the head. -/
lemma setCachedResult_fresh_full {V : Type} (p0 : String × CacheEntry V)
    (rest : Cache V) (k : String) (v : V) (now : Int)
    (hfresh : ∀ p ∈ p0 :: rest, p.1 ≠ k)
    (hlen : (p0 :: rest).length = 50) :
    setCachedResult (p0 :: rest) k v now = rest ++ [(k, ⟨v, now⟩)] := by
  have hany : ((p0 :: rest).any (fun p => p.1 == k)) = false := by
    rw [← Bool.not_eq_true]
    intro h
    rcases List.any_eq_true.1 h with ⟨p, hp, hpk⟩
    exact hfresh p hp (by simpa using hpk)
  unfold setCachedResult mapSet
  rw [hany]
  simp only [Bool.false_eq_true, if_false]
  have hlen51 : 50 < ((p0 :: rest) ++ [(k, (⟨v, now⟩ : CacheEntry V))]).length := by
    rw [List.length_append, hlen]
    simp
  rw [if_pos hlen51]
  show mapDelete ((p0 :: rest) ++ [(k, ⟨v, now⟩)]) p0.1 = rest ++ [(k, ⟨v, now⟩)]
  unfold mapDelete
  rw [List.cons_append, List.eraseP_cons_of_pos (by simp)]

/-- After any `setCachedResult` on a well-formed cache of at most 50 entries,
the inserted key maps to the just-stored entry. -/
lemma mapGet_setCachedResult_self {V : Type} (cache : Cache V) (k : String)
    (v : V) (now : Int) (hwf : CacheWF cache) (hlen : cache.length ≤ 50) :
    mapGet (setCachedResult cache k v now) k = some ⟨v, now⟩ := by
  by_cases hany : cache.any (fun p => p.1 == k) = true
  · have hset : mapSet cache k ⟨v, now⟩ =
        cache.map (fun p => if p.1 == k then (k, ⟨v, now⟩) else p) := by
      unfold mapSet; rw [if_pos hany]
    unfold setCachedResult
    rw [hset]
    have hlen' : ¬ (50 < (cache.map (fun p => if p.1 == k then (k, ⟨v, now⟩) else p)).length) := by
      rw [List.length_map]; omega
    rw [if_neg hlen']
    exact mapGet_mapSet_present ⟨v, now⟩ cache hany
  · have hfresh : ∀ p ∈ cache, p.1 ≠ k := by
      intro p hp hpk
      exact hany (List.any_eq_true.2 ⟨p, hp, by simp [hpk]⟩)
    have hset : mapSet cache k ⟨v, now⟩ = cache ++ [(k, ⟨v, now⟩)] := by
      unfold mapSet
      rw [if_neg hany]
    unfold setCachedResult
    rw [hset]
    by_cases h51 : 50 < (cache ++ [(k, (⟨v, now⟩ : CacheEntry V))]).length
    · rw [if_pos h51]
      have hne : cache ≠ [] := by
        intro h
        rw [h] at h51
        simp at h51
      rcases cache with _ | ⟨p0, rest⟩
      · exact absurd rfl hne
      · show mapGet (mapDelete ((p0 :: rest) ++ [(k, ⟨v, now⟩)]) p0.1) k = some ⟨v, now⟩
        unfold mapDelete
        rw [List.cons_append, List.eraseP_cons_of_pos (by simp)]
        unfold mapGet
        rw [List.find?_append, find?_eq_none_of_fresh (fun p hp => hfresh p (List.mem_cons_of_mem p0 hp))]
        simp
    · rw [if_neg h51]
      unfold mapGet
      rw [List.find?_append, find?_eq_none_of_fresh hfresh]
      simp

/-- `setCachedResult` preserves key uniqueness. -/
lemma CacheWF_setCachedResult {V : Type} {cache : Cache V} (hwf : CacheWF cache)
    (k : String) (v : V) (now : Int) : CacheWF (setCachedResult cache k v now) := by
  unfold setCachedResult
  have hwf1 : CacheWF (mapSet cache k ⟨v, now⟩) := CacheWF_mapSet hwf k ⟨v, now⟩
  by_cases h51 : 50 < (mapSet cache k (⟨v, now⟩ : CacheEntry V)).length
  · rw [if_pos h51]
    rcases hfk : firstKey (mapSet cache k (⟨v, now⟩ : CacheEntry V)) with _ | k0
    · exact hwf1
    · exact CacheWF_mapDelete hwf1 k0
  · rw [if_neg h51]
    exact hwf1

/-! Claims C4 and C5: cache capacity/eviction and expiry. -/

/-- C4: a put never leaves more than 50 entries, and inserting a fresh 51st
key into a full well-formed cache stores the new entry, evicts exactly the
oldest-inserted (first) key, and keeps every other key retrievable with its
stored entry. -/
theorem analysisCache_capacity_eviction {V : Type} (cache : Cache V)
    (k : String) (v : V) (now : Int) :
    (cache.length ≤ 50 → (setCachedResult cache k v now).length ≤ 50) ∧
    (CacheWF cache → cache.length = 50 → (∀ p ∈ cache, p.1 ≠ k) →
       mapGet (setCachedResult cache k v now) k = some ⟨v, now⟩ ∧
       (∀ p0, cache.head? = some p0 →
          mapGet (setCachedResult cache k v now) p0.1 = none) ∧
       (∀ p ∈ cache.tail, mapGet (setCachedResult cache k v now) p.1 = some p.2) ∧
       (setCachedResult cache k v now).length = 50) := by
  constructor
  · intro hlen
    unfold setCachedResult
    by_cases hany : cache.any (fun p => p.1 == k) = true
    · have hset : mapSet cache k ⟨v, now⟩ =
          cache.map (fun p => if p.1 == k then (k, ⟨v, now⟩) else p) := by
        unfold mapSet; rw [if_pos hany]
      rw [hset]
      have h51 : ¬ (50 < (cache.map (fun p => if p.1 == k then (k, ⟨v, now⟩) else p)).length) := by
        rw [List.length_map]; omega
      rw [if_neg h51, List.length_map]
      exact hlen
    · have hset : mapSet cache k ⟨v, now⟩ = cache ++ [(k, ⟨v, now⟩)] := by
        unfold mapSet; rw [if_neg hany]
      rw [hset]
      by_cases h51 : 50 < (cache ++ [(k, (⟨v, now⟩ : CacheEntry V))]).length
      · rw [if_pos h51]
        rcases cache with _ | ⟨p0, rest⟩
        · simp at h51
        · show (mapDelete ((p0 :: rest) ++ [(k, ⟨v, now⟩)]) p0.1).length ≤ 50
          unfold mapDelete
          rw [List.cons_append, List.eraseP_cons_of_pos (by simp)]
          rw [List.length_append] at h51 ⊢
          simp only [List.length_cons] at h51 hlen
          simp only [List.length_singleton]
          omega
      · rw [if_neg h51]
        rw [List.length_append] at h51 ⊢
        simp only [List.length_singleton] at h51 ⊢
        omega
  · intro hwf hlen hfresh
    rcases cache with _ | ⟨p0, rest⟩
    · simp at hlen
    · have heq := setCachedResult_fresh_full p0 rest k v now hfresh hlen
      have hwf' := hwf
      unfold CacheWF at hwf'
      rw [List.map_cons, List.nodup_cons] at hwf'
      refine ⟨?_, ?_, ?_, ?_⟩
      · rw [heq]
        unfold mapGet
        rw [List.find?_append,
          find?_eq_none_of_fresh (fun p hp => hfresh p (List.mem_cons_of_mem p0 hp))]
        simp
      · intro q0 hq0
        have h0 : p0 = q0 := by simpa using hq0
        subst h0
        rw [heq]
        unfold mapGet
        rw [List.find?_append]
        have h1 : rest.find? (fun p => p.1 == p0.1) = none := by
          refine find?_eq_none_of_fresh ?_
          intro p hp hpk
          exact hwf'.1 (hpk ▸ List.mem_map_of_mem (fun r => r.1) hp)
        have h2 : [(k, (⟨v, now⟩ : CacheEntry V))].find? (fun p => p.1 == p0.1) = none := by
          refine find?_eq_none_of_fresh ?_
          intro p hp
          have hpe : p = (k, (⟨v, now⟩ : CacheEntry V)) := by simpa using hp
          subst hpe
          exact fun hk => hfresh p0 (List.mem_cons_self _ _) hk.symm
        rw [h1, h2]
        rfl
      · intro p hp
        rw [heq]
        unfold mapGet
        rw [List.find?_append, find?_key_of_mem hwf'.2 p hp]
        rfl
      · rw [heq, List.length_append]
        simp only [List.length_cons] at hlen
        simp only [List.length_singleton]
        omega

/-- A concrete full cache: 50 distinct single-character keys, in insertion
order. -/
def fullCache50 : Cache Nat :=
  (List.range 50).map (fun i => (String.mk [Char.ofNat (65 + i)], ⟨0, 0⟩))

/-- Witness for C4 at the concrete 50-entry cache and a fresh 51st key: the
new key is stored, the oldest key "A" is evicted, its successor "B" survives,
and the size stays 50. -/
theorem analysisCache_capacity_eviction_witness :
    (setCachedResult fullCache50 "new" 7 123).length ≤ 50 ∧
    mapGet (setCachedResult fullCache50 "new" 7 123) "new" = some ⟨7, 123⟩ ∧
    mapGet (setCachedResult fullCache50 "new" 7 123) (String.mk [Char.ofNat 65]) = none ∧
    mapGet (setCachedResult fullCache50 "new" 7 123) (String.mk [Char.ofNat 66]) = some ⟨0, 0⟩ ∧
    (setCachedResult fullCache50 "new" 7 123).length = 50 :=
  have h := (analysisCache_capacity_eviction fullCache50 "new" 7 123).2
    (by decide) (by decide) (by decide)
  ⟨(analysisCache_capacity_eviction fullCache50 "new" 7 123).1 (by decide),
   h.1,
   h.2.1 (String.mk [Char.ofNat 65], ⟨0, 0⟩) (by decide),
   h.2.2.1 (String.mk [Char.ofNat 66], ⟨0, 0⟩) (by decide),
   h.2.2.2⟩

/-- C5: for an entry inserted at `t0` into a well-formed cache of at most 50
entries, a lookup strictly more than one hour later returns absent and purges
the key, while a lookup strictly within one hour returns the stored value and
leaves the cache unchanged. -/
theorem analysisCache_expiry {V : Type} (cache : Cache V) (k : String) (v : V)
    (t0 now : Int) (hwf : CacheWF cache) (hlen : cache.length ≤ 50) :
    (t0 + 3600000 < now →
       (getCachedResult (setCachedResult cache k v t0) k now).1 = none ∧
       mapGet (getCachedResult (setCachedResult cache k v t0) k now).2 k = none) ∧
    (now - t0 < 3600000 →
       getCachedResult (setCachedResult cache k v t0) k now =
         (some v, setCachedResult cache k v t0)) := by
  have hget := mapGet_setCachedResult_self cache k v t0 hwf hlen
  have hwf1 := CacheWF_setCachedResult hwf k v t0
  have hstep : getCachedResult (setCachedResult cache k v t0) k now =
      (if now - t0 < 60 * 60 * 1000 then (some v, setCachedResult cache k v t0)
       else (none, mapDelete (setCachedResult cache k v t0) k)) := by
    unfold getCachedResult
    rw [hget]
  rw [hstep]
  constructor
  · intro hold
    rw [if_neg (show ¬ (now - t0 < 60 * 60 * 1000) by omega)]
    exact ⟨rfl, mapGet_mapDelete_self hwf1 k⟩
  · intro hrecent
    rw [if_pos (show now - t0 < 60 * 60 * 1000 by omega)]

/-- Witness for C5 at a singleton insertion into the empty cache: expired at
`t0 + 1h + 1s`, present at `t0 + 10ms`. -/
theorem analysisCache_expiry_witness :
    (getCachedResult (setCachedResult ([] : Cache Nat) "key" 7 0) "key" 3601000).1 = none ∧
    getCachedResult (setCachedResult ([] : Cache Nat) "key" 7 0) "key" 10 =
      (some 7, setCachedResult ([] : Cache Nat) "key" 7 0) :=
  ⟨((analysisCache_expiry ([] : Cache Nat) "key" 7 0 3601000 (by decide)
      (by decide)).1 (by decide)).1,
   (analysisCache_expiry ([] : Cache Nat) "key" 7 0 10 (by decide) (by decide)).2
      (by decide)⟩

/-! Claim C1: `analyzeAll` with all three `include*` flags false. -/

/-- Counterexample for C1 as stated: with all three flags false (and a
non-blank text missing from the cache) the call does not fail — it resolves
(`isOk`), issuing zero provider calls; there is no pre-flight rejection. -/
theorem analyzeAll_no_kinds_counterexample :
    Except.isOk (analyzeAllRun (S := Nat) (K := Nat) (Q := Nat)
        (initialHookState Nat Nat Nat) [] "hello world" "opts"
        ⟨false, false, false⟩ (Except.ok 0) (Except.ok 0) (Except.ok 0) 0).outcome
      = true ∧
    (analyzeAllRun (S := Nat) (K := Nat) (Q := Nat)
        (initialHookState Nat Nat Nat) [] "hello world" "opts"
        ⟨false, false, false⟩ (Except.ok 0) (Except.ok 0) (Except.ok 0) 0).issuedCalls
      = [] := by
  exact ⟨rfl, rfl⟩

/-- C1 (amended): for every non-blank text not answered from the cache,
`analyzeAll` with `includeSummary`, `includeKeywords` and `includeQuestions`
all false issues zero provider calls and resolves successfully with an empty
aggregate whose `success` flag is false (it does not reject). -/
theorem analyzeAll_no_kinds_noop {S K Q : Type} (st : HookState S K Q)
    (cache : Cache (HookCacheVal S K Q)) (text optionsString : String)
    (summaryOutcome : Except String S) (keywordsOutcome : Except String K)
    (questionsOutcome : Except String Q) (now : Int)
    (htext : (jsTrim text).length ≠ 0)
    (hmiss : (getCachedResult cache (generateCacheKey text optionsString) now).1 = none) :
    (analyzeAllRun st cache text optionsString ⟨false, false, false⟩
        summaryOutcome keywordsOutcome questionsOutcome now).issuedCalls = [] ∧
    ∃ r, (analyzeAllRun st cache text optionsString ⟨false, false, false⟩
            summaryOutcome keywordsOutcome questionsOutcome now).outcome =
          Except.ok (HookCacheVal.allV r) ∧
         r.success = false ∧ r.summary = none ∧ r.keywords = none ∧
         r.questions = none ∧ r.errSummary = none ∧ r.errKeywords = none ∧
         r.errQuestions = none := by
  have hpt := jsTrim_analyzeProcessText_len text htext
  rcases hg : getCachedResult cache (generateCacheKey text optionsString) now with ⟨o, cache1⟩
  have ho : o = none := by rw [hg] at hmiss; exact hmiss
  subst ho
  have hrun : analyzeText (S := S) (K := K) (Q := Q) (analyzeProcessText text)
      ⟨false, false, false⟩ summaryOutcome keywordsOutcome questionsOutcome =
      (Except.ok
        { summary := none, keywords := none, questions := none,
          errSummary := none, errKeywords := none, errQuestions := none,
          success := false, hasErrors := false,
          originalLength := (analyzeProcessText text).length,
          originalWordCount := wordCount (analyzeProcessText text),
          originalPreview := textPreview (analyzeProcessText text) }, []) := by
    unfold analyzeText
    rw [if_neg hpt]
    rfl
  unfold analyzeAllRun
  rw [if_neg htext]
  simp only [hg, hrun]
  exact ⟨trivial, _, rfl, rfl, rfl, rfl, rfl, rfl, rfl, rfl⟩

/-- Witness for C1's amended theorem at a concrete non-blank text and an empty
cache. -/
theorem analyzeAll_no_kinds_noop_witness :
    (analyzeAllRun (S := Nat) (K := Nat) (Q := Nat)
        (initialHookState Nat Nat Nat) [] "transcribed text" "opts"
        ⟨false, false, false⟩ (Except.ok 1) (Except.ok 2) (Except.ok 3) 5).issuedCalls = [] ∧
    ∃ r, (analyzeAllRun (S := Nat) (K := Nat) (Q := Nat)
            (initialHookState Nat Nat Nat) [] "transcribed text" "opts"
            ⟨false, false, false⟩ (Except.ok 1) (Except.ok 2) (Except.ok 3) 5).outcome =
          Except.ok (HookCacheVal.allV r) ∧
         r.success = false ∧ r.summary = none ∧ r.keywords = none ∧
         r.questions = none ∧ r.errSummary = none ∧ r.errKeywords = none ∧
         r.errQuestions = none :=
  analyzeAll_no_kinds_noop (initialHookState Nat Nat Nat) [] "transcribed text"
    "opts" (Except.ok 1) (Except.ok 2) (Except.ok 3) 5 (by decide) rfl

/-! Claim C2: per-kind failure isolation in `analyzeText`. -/

/-- C2: for every non-blank text, `analyzeText` never rejects as a whole: it
resolves after all issued kinds have settled, it issues exactly the enabled
kinds, and each kind settles independently — an enabled kind's fulfilled value
lands in its result field, an enabled kind's rejection message lands in its
per-kind error field (leaving the result field empty), disabled kinds
contribute nothing, and every issued kind is recorded either as a result or as
an error, irrespective of the other kinds' outcomes.  In particular, one
kind's failure never aborts its siblings, and the aggregate `success` flag is
set exactly when some enabled kind succeeded. -/
theorem analyzeText_failure_isolation {S K Q : Type} (text : String)
    (opts : IncludeFlags) (summaryOutcome : Except String S)
    (keywordsOutcome : Except String K) (questionsOutcome : Except String Q)
    (htext : (jsTrim text).length ≠ 0) :
    Except.isOk (analyzeText text opts summaryOutcome keywordsOutcome
        questionsOutcome).1 = true ∧
    (analyzeText text opts summaryOutcome keywordsOutcome questionsOutcome).2 =
      issuedKinds opts ∧
    ∀ r, (analyzeText text opts summaryOutcome keywordsOutcome
            questionsOutcome).1 = Except.ok r →
      (opts.includeSummary = true →
         r.summary = Except.toOption summaryOutcome ∧
         r.errSummary = settledError summaryOutcome ∧
         (r.summary.isSome || r.errSummary.isSome) = true) ∧
      (opts.includeSummary = false → r.summary = none ∧ r.errSummary = none) ∧
      (opts.includeKeywords = true →
         r.keywords = Except.toOption keywordsOutcome ∧
         r.errKeywords = settledError keywordsOutcome ∧
         (r.keywords.isSome || r.errKeywords.isSome) = true) ∧
      (opts.includeKeywords = false → r.keywords = none ∧ r.errKeywords = none) ∧
      (opts.includeQuestions = true →
         r.questions = Except.toOption questionsOutcome ∧
         r.errQuestions = settledError questionsOutcome ∧
         (r.questions.isSome || r.errQuestions.isSome) = true) ∧
      (opts.includeQuestions = false → r.questions = none ∧ r.errQuestions = none) ∧
      r.success = (r.summary.isSome || r.keywords.isSome || r.questions.isSome) := by
  have hrun : analyzeText text opts summaryOutcome keywordsOutcome questionsOutcome =
      (Except.ok
        { summary := if opts.includeSummary then Except.toOption summaryOutcome else none
          keywords := if opts.includeKeywords then Except.toOption keywordsOutcome else none
          questions := if opts.includeQuestions then Except.toOption questionsOutcome else none
          errSummary := if opts.includeSummary then settledError summaryOutcome else none
          errKeywords := if opts.includeKeywords then settledError keywordsOutcome else none
          errQuestions := if opts.includeQuestions then settledError questionsOutcome else none
          success :=
            (if opts.includeSummary then Except.toOption summaryOutcome else none).isSome ||
            (if opts.includeKeywords then Except.toOption keywordsOutcome else none).isSome ||
            (if opts.includeQuestions then Except.toOption questionsOutcome else none).isSome
          hasErrors :=
            (if opts.includeSummary then settledError summaryOutcome else none).isSome ||
            (if opts.includeKeywords then settledError keywordsOutcome else none).isSome ||
            (if opts.includeQuestions then settledError questionsOutcome else none).isSome
          originalLength := text.length
          originalWordCount := wordCount text
          originalPreview := textPreview text }, issuedKinds opts) := by
    unfold analyzeText
    rw [if_neg htext]
  rw [hrun]
  refine ⟨rfl, rfl, ?_⟩
  intro r hr
  injection hr with hr'
  subst hr'
  refine ⟨?_, ?_, ?_, ?_, ?_, ?_, rfl⟩
  · intro h
    rw [h]
    refine ⟨by simp, by simp, ?_⟩
    simp only [h, if_true]
    cases summaryOutcome <;> simp [Except.toOption, settledError]
  · intro h; rw [h]; simp
  · intro h
    rw [h]
    refine ⟨by simp, by simp, ?_⟩
    simp only [h, if_true]
    cases keywordsOutcome <;> simp [Except.toOption, settledError]
  · intro h; rw [h]; simp
  · intro h
    rw [h]
    refine ⟨by simp, by simp, ?_⟩
    simp only [h, if_true]
    cases questionsOutcome <;> simp [Except.toOption, settledError]
  · intro h; rw [h]; simp

/-- Witness for C2: all three kinds enabled, with exactly the keywords kind
failing — the call resolves, `summary` and `questions` are populated, and the
keywords failure is recorded in the per-kind errors. -/
theorem analyzeText_failure_isolation_witness :
    Except.isOk (analyzeText (S := Nat) (K := Nat) (Q := Nat) "hello"
        ⟨true, true, true⟩ (Except.ok 1)
        (Except.error "Keyword extraction failed: boom") (Except.ok 2)).1 = true ∧
    (analyzeText (S := Nat) (K := Nat) (Q := Nat) "hello"
        ⟨true, true, true⟩ (Except.ok 1)
        (Except.error "Keyword extraction failed: boom") (Except.ok 2)).1 =
      Except.ok
        { summary := some 1, keywords := none, questions := some 2,
          errSummary := none,
          errKeywords := some "Keyword extraction failed: boom",
          errQuestions := none, success := true, hasErrors := true,
          originalLength := 5, originalWordCount := 1,
          originalPreview := "hello" } :=
  ⟨(analyzeText_failure_isolation "hello" ⟨true, true, true⟩
      (Except.ok 1) (Except.error "Keyword extraction failed: boom")
      (Except.ok 2) (by decide)).1,
   rfl⟩

/-! Claim C10: the hook's busy/progress state is restored on settlement. -/

/-- C10: every hook analysis call that runs past the cache lookup (non-blank
text, cache miss) ends — whether the service outcome is success or failure —
with `isAnalyzing = false`, `progress = 0` and `analysisType = null`, for
`analyzeSummary`, `analyzeKeywords`, `analyzeQuestions` and `analyzeAll`
alike: the `finally` block always restores the busy state. -/
theorem hook_busy_state_restored {S K Q : Type} (st : HookState S K Q)
    (cache : Cache (HookCacheVal S K Q)) (text optionsString : String)
    (summaryOutcome : Except String S) (keywordsOutcome : Except String K)
    (questionsOutcome : Except String Q) (opts : IncludeFlags) (now : Int)
    (htext : (jsTrim text).length ≠ 0)
    (hmiss : (getCachedResult cache (generateCacheKey text optionsString) now).1 = none) :
    ((analyzeSummary st cache text optionsString summaryOutcome now).finalState.isAnalyzing = false ∧
     (analyzeSummary st cache text optionsString summaryOutcome now).finalState.progress = 0 ∧
     (analyzeSummary st cache text optionsString summaryOutcome now).finalState.analysisType = none) ∧
    ((analyzeKeywords st cache text optionsString keywordsOutcome now).finalState.isAnalyzing = false ∧
     (analyzeKeywords st cache text optionsString keywordsOutcome now).finalState.progress = 0 ∧
     (analyzeKeywords st cache text optionsString keywordsOutcome now).finalState.analysisType = none) ∧
    ((analyzeQuestions st cache text optionsString questionsOutcome now).finalState.isAnalyzing = false ∧
     (analyzeQuestions st cache text optionsString questionsOutcome now).finalState.progress = 0 ∧
     (analyzeQuestions st cache text optionsString questionsOutcome now).finalState.analysisType = none) ∧
    ((analyzeAllRun st cache text optionsString opts summaryOutcome keywordsOutcome
        questionsOutcome now).finalState.isAnalyzing = false ∧
     (analyzeAllRun st cache text optionsString opts summaryOutcome keywordsOutcome
        questionsOutcome now).finalState.progress = 0 ∧
     (analyzeAllRun st cache text optionsString opts summaryOutcome keywordsOutcome
        questionsOutcome now).finalState.analysisType = none) := by
  rcases hg : getCachedResult cache (generateCacheKey text optionsString) now with ⟨o, cache1⟩
  have ho : o = none := by rw [hg] at hmiss; exact hmiss
  subst ho
  refine ⟨?_, ?_, ?_, ?_⟩
  · unfold analyzeSummary
    rw [if_neg htext]
    simp only [hg]
    cases summaryOutcome <;> exact ⟨rfl, rfl, rfl⟩
  · unfold analyzeKeywords
    rw [if_neg htext]
    simp only [hg]
    cases keywordsOutcome <;> exact ⟨rfl, rfl, rfl⟩
  · unfold analyzeQuestions
    rw [if_neg htext]
    simp only [hg]
    cases questionsOutcome <;> exact ⟨rfl, rfl, rfl⟩
  · unfold analyzeAllRun
    rw [if_neg htext]
    simp only [hg]
    rcases hat : analyzeText (analyzeProcessText text) opts summaryOutcome
        keywordsOutcome questionsOutcome with ⟨res, issued⟩
    cases res <;> exact ⟨rfl, rfl, rfl⟩

/-- Witness for C10 at a concrete text, empty cache, and a failing summary
outcome (the error path also restores the state). -/
theorem hook_busy_state_restored_witness :
    (analyzeSummary (S := Nat) (K := Nat) (Q := Nat)
        (initialHookState Nat Nat Nat) [] "hello" "opts"
        (Except.error "Summary generation failed: boom") 0).finalState.isAnalyzing = false ∧
    (analyzeAllRun (S := Nat) (K := Nat) (Q := Nat)
        (initialHookState Nat Nat Nat) [] "hello" "opts" ⟨true, true, true⟩
        (Except.error "Summary generation failed: boom") (Except.ok 2)
        (Except.ok 3) 0).finalState.progress = 0 :=
  ⟨((hook_busy_state_restored (initialHookState Nat Nat Nat) [] "hello" "opts"
      (Except.error "Summary generation failed: boom") (Except.ok 2) (Except.ok 3)
      ⟨true, true, true⟩ 0 (by decide) rfl).1).1,
   (((hook_busy_state_restored (initialHookState Nat Nat Nat) [] "hello" "opts"
      (Except.error "Summary generation failed: boom") (Except.ok 2) (Except.ok 3)
      ⟨true, true, true⟩ 0 (by decide) rfl).2).2).2.2.1⟩

end Conversations
